import Mathlib

/-!
Verification of the monfari ledger core against its specification.

The Rust sources are shallowly embedded: machine integers (`i32`, `u128`)
become `Int`/`Nat` with explicit bounds where they matter, `Result`/`Option`
become `Except`/`Option`, and the stateful repositories become explicit
state-passing functions.  Identifier phantom kind tags (`Id<T>`) have no
runtime representation in the source, so identifiers are embedded as their
underlying 128-bit value (`Nat`); where a claim speaks about kind tags, the
functions take an explicit `Kind` argument that the source's generic
implementations ignore, exactly as the Rust `impl<T>` blocks do.
-/

namespace Monfari

/-- Kinds a typed identifier can be tagged with (`Id<Account<Physical>>`,
`Id<Account<Virtual>>`, `Id<Account>`, `Id<Transaction>`).  The tag is
compile-time only in the source (`PhantomData`). -/
inductive Kind where
  | physical
  | virtual
  | plain
  | transaction
deriving DecidableEq, Repr

/-- Rust `Currency([char; 3])` from src/src/types.rs. -/
structure Currency where
  c1 : Char
  c2 : Char
  c3 : Char
deriving DecidableEq, Repr

/-- Rust `Currency::USD`. -/
def Currency.USD : Currency := ⟨'U', 'S', 'D'⟩

/-- Rust `Currency::EUR`. -/
def Currency.EUR : Currency := ⟨'E', 'U', 'R'⟩

/-- The invariant `FromStr for Currency` enforces: exactly three ASCII
upper-case characters (`is_ascii_uppercase`). -/
def Currency.valid (c : Currency) : Bool :=
  c.c1.isUpper && c.c2.isUpper && c.c3.isUpper

/-- Rust `Amount(pub i32, pub Currency)` from src/src/types.rs: a signed count of
minor units paired with a currency. -/
structure Amount where
  value : Int
  cur : Currency
deriving DecidableEq, Repr

/-- Rust `impl Neg for Amount`: negate the minor-unit count, keep the currency. -/
instance : Neg Amount := ⟨fun a => ⟨-a.value, a.cur⟩⟩

theorem Amount.neg_def (a : Amount) : -a = ⟨-a.value, a.cur⟩ := rfl

/-- Rust `Amounts(BTreeMap<Currency, Amount>)`: a multi-currency balance map,
embedded as an association list with at most one entry per currency.  The
`BTreeMap` key order is immaterial to every claim treated here, so insertion
appends new currencies instead of sorting them. -/
def Amounts := List (Currency × Int)
deriving DecidableEq, Repr

instance : EmptyCollection Amounts := ⟨([] : List (Currency × Int))⟩

/-- Rust `AddAssign<Amount> for Amounts`: `entry(currency).or_insert(0) += value`. -/
def Amounts.add : Amounts → Amount → Amounts
  | [], a => [(a.cur, a.value)]
  | (c, x) :: rest, a =>
    if c = a.cur then (c, x + a.value) :: rest
    else (c, x) :: Amounts.add rest a

/-- Rust `current.0.values().all(|x| x.0 >= 0)`: every currency entry of the
balance map is non-negative. -/
def Amounts.allNonneg (m : Amounts) : Bool :=
  (m : List (Currency × Int)).all (fun p => 0 ≤ p.2)

/-- Rust `impl Sum<Amount> for Amounts`: fold `+=` from the empty map. -/
def Amounts.sum (l : List Amount) : Amounts :=
  l.foldl Amounts.add ([] : List (Currency × Int))

/-- Rust `enum AccountType { Physical, Virtual }`. -/
inductive AccountType where
  | physical
  | virtual
deriving DecidableEq, Repr

/-- Rust `struct Account` from src/src/types.rs (`id, name, notes, typ, current,
enabled`); the identifier is its erased 128-bit value. -/
structure Account where
  id : Nat
  name : String
  notes : String
  typ : AccountType
  current : Amounts
  enabled : Bool
deriving DecidableEq, Repr

/-- Rust `enum TransactionInner` from src/src/types.rs: the five transaction
shapes.  Account identifiers are embedded erased (the phantom
physical/virtual tags have no runtime content). -/
inductive TransactionInner where
  | received (src : String) (dst : Nat) (dstVirt : Nat)
  | paid (src : Nat) (srcVirt : Nat) (dst : String)
  | movePhys (src : Nat) (dst : Nat)
  | moveVirt (src : Nat) (dst : Nat)
  | convert (acc : Nat) (accVirt : Nat) (newAmount : Amount)
deriving DecidableEq, Repr

/-- Rust `struct Transaction { id, notes, amount, inner }`. -/
structure Transaction where
  id : Nat
  notes : String
  amount : Amount
  inner : TransactionInner
deriving DecidableEq, Repr

/-- Rust `Transaction::results` (src/src/types.rs lines 362-395): the per-account
balance-delta list of a transaction. -/
def Transaction.results (t : Transaction) : List (Nat × Amount) :=
  match t.inner with
  | .received _ dst dstVirt => [(dst, t.amount), (dstVirt, t.amount)]
  | .paid src srcVirt _ => [(src, -t.amount), (srcVirt, -t.amount)]
  | .movePhys src dst => [(src, -t.amount), (dst, t.amount)]
  | .moveVirt src dst => [(src, -t.amount), (dst, t.amount)]
  | .convert acc accVirt newAmount =>
    [(acc, -t.amount), (acc, newAmount), (accVirt, -t.amount), (accVirt, newAmount)]

/-- Rust `Transaction::accounts` (src/src/types.rs lines 397-417): the two
participating account identifiers, erased. -/
def Transaction.accounts (t : Transaction) : List Nat :=
  match t.inner with
  | .received _ dst dstVirt => [dst, dstVirt]
  | .paid src srcVirt _ => [src, srcVirt]
  | .movePhys src dst => [src, dst]
  | .moveVirt src dst => [src, dst]
  | .convert acc accVirt _ => [acc, accVirt]

/-- Rust `enum AccountModification` from src/src/command.rs. -/
inductive AccountModification where
  | disable
  | updateName (name : String)
  | updateNotes (notes : String)
deriving DecidableEq, Repr

/-- Rust `enum Command` from src/src/command.rs: the only mutation entry points. -/
inductive Command where
  | createAccount (a : Account)
  | updateAccount (id : Nat) (mods : List AccountModification)
  | addTransaction (t : Transaction)
deriving DecidableEq, Repr

/-- The §3 balance-effect table of the specification, transcribed from the
spec's words (not from the source): Received credits dst and dst_virt; Paid
debits src and src_virt; MovePhys debits src by exactly the amount and
credits dst; MoveVirt likewise; Convert applies the debit of `amount` and
the credit of `new_amount` to both acc and acc_virt. -/
def resultsSpecTable (t : Transaction) : List (Nat × Amount) :=
  match t.inner with
  | .received _ dst dstVirt => [(dst, t.amount), (dstVirt, t.amount)]
  | .paid src srcVirt _ => [(src, -t.amount), (srcVirt, -t.amount)]
  | .movePhys src dst => [(src, -t.amount), (dst, t.amount)]
  | .moveVirt src dst => [(src, -t.amount), (dst, t.amount)]
  | .convert acc accVirt newAmount =>
    [(acc, -t.amount), (acc, newAmount), (accVirt, -t.amount), (accVirt, newAmount)]

/-- Claim C3: for every Transaction, the per-account delta list computed by
`Transaction.results` equals the §3 table of the specification; in
particular `MovePhys` debits the source by exactly the moved amount (the
embedded src/src/types.rs variant has no separate fees field). -/
theorem C3_results_match_spec_table (t : Transaction) :
    t.results = resultsSpecTable t := by
  cases t with
  | mk id notes amount inner => cases inner <;> rfl

/-- Claim C10: the account identifiers occurring in `Transaction.results`
are exactly the two identifiers returned by `Transaction.accounts`, so
balance recomputation (filtering `results` by id) and participation
filtering (via `accounts`) agree on which accounts a transaction touches. -/
theorem C10_results_ids_eq_accounts (t : Transaction) (a : Nat) :
    a ∈ t.results.map Prod.fst ↔ a ∈ t.accounts := by
  cases t with
  | mk id notes amount inner =>
    cases inner <;>
      simp [Transaction.results, Transaction.accounts]

/-- Association-list lookup keyed by identifier, modelling both
`BTreeMap::get` and reading an entity file named after its id. -/
def lookupBy {α : Type} (l : List (Nat × α)) (id : Nat) : Option α :=
  (l.find? (fun p => p.1 == id)).map Prod.snd

/-- Association-list insert-or-replace keyed by identifier, modelling both
`BTreeMap::insert`/`get_mut` and `fs::write` of an entity file (which
overwrites an existing file). -/
def setBy {α : Type} : List (Nat × α) → Nat → α → List (Nat × α)
  | [], id, a => [(id, a)]
  | (k, x) :: rest, id, a =>
    if k = id then (k, a) :: rest else (k, x) :: setBy rest id a

/-- Rust `struct LocalRepository` (src/src/repository/local.rs): the on-disk
`accounts/` and `transactions/` collections (one file per entity keyed by
its textual id), the in-memory account index, and the number of git commits
made (a successful `run_command` is exactly one commit; the audit message
content is irrelevant to the claims).  `headAccountFiles` and
`headTransactionFiles` are the repository content as of the last git
commit: every write in this backend is immediately staged (`git add`
follows each `fs::write`), so the git index always coincides with the
working-tree content modeled by `accountFiles`/`transactionFiles`, and the
final `git commit -m` of `run_command` fails with a nonzero exit
("nothing to commit") exactly when that content equals HEAD.  `open`
requires a clean tree (`git diff-index --quiet HEAD`), so reachable
initial states have the head fields equal to the file fields. -/
structure LocalState where
  accountFiles : List (Nat × Account)
  transactionFiles : List (Nat × Transaction)
  accountsMem : List (Nat × Account)
  commits : Nat
  headAccountFiles : List (Nat × Account)
  headTransactionFiles : List (Nat × Transaction)
deriving DecidableEq, Repr

/-- Rust `itertools::group_by` over `Transaction::results`: groups adjacent
deltas that target the same account. -/
def groupByKey : List (Nat × Amount) → List (Nat × List Amount)
  | [] => []
  | (k, v) :: rest =>
    match groupByKey rest with
    | [] => [(k, [v])]
    | (k2, vs) :: gs =>
      if k = k2 then (k, v :: vs) :: gs else (k, [v]) :: (k2, vs) :: gs

/-- First phase of `LocalRepository::modify` for one delta group of
`add_transaction` (src/src/repository/local.rs lines 166-187 and 199-210):
clone the account out of the in-memory index (error if absent), apply the
deltas to `current`, and require every resulting currency entry to be
non-negative.  The returned pair is the pending write the closure would
perform. -/
def planOne (mem : List (Nat × Account)) (acc : Nat) (amounts : List Amount) :
    Except String (Nat × Account) :=
  match lookupBy mem acc with
  | none => .error "No such account"
  | some a =>
    let a2 := { a with current := amounts.foldl Amounts.add a.current }
    if a2.current.allNonneg then .ok (acc, a2)
    else .error "Account balance must never be below 0 in any currency"

/-- Rust `collect::<Result<Vec<_>>>()`: run the planning phase for every group,
stopping at the first error before any write happens. -/
def planAll (mem : List (Nat × Account)) :
    List (Nat × List Amount) → Except String (List (Nat × Account))
  | [] => .ok []
  | (k, vs) :: gs =>
    match planOne mem k vs with
    | .error e => .error e
    | .ok p =>
      match planAll mem gs with
      | .error e => .error e
      | .ok ps => .ok (p :: ps)

/-- Apply a pending account write: update the in-memory index and serialize
the account back to its file (the second phase of `modify`). -/
def applyPlan (st : LocalState) (p : Nat × Account) : LocalState :=
  { st with
    accountsMem := setBy st.accountsMem p.1 p.2
    accountFiles := setBy st.accountFiles p.1 p.2 }

/-- Rust `LocalRepository::add_transaction` (src/src/repository/local.rs lines
191-215): the transaction file is written first (`self.create`), then all
delta groups are planned against the old index, and only if every check
passes are the account writes executed. -/
def LocalState.addTransaction (st : LocalState) (t : Transaction) :
    Except String Unit × LocalState :=
  let st1 := { st with transactionFiles := setBy st.transactionFiles t.id t }
  match planAll st1.accountsMem (groupByKey t.results) with
  | .error e => (.error e, st1)
  | .ok ps => (.ok (), ps.foldl applyPlan st1)

/-- Rust `LocalRepository::create_account` (src/src/repository/local.rs lines
217-226): the account file is written first (`self.create`), then
`BTreeMap::insert` replaces any existing in-memory entry, and only the
returned old value decides whether the duplicate-id error is raised. -/
def LocalState.createAccount (st : LocalState) (a : Account) :
    Except String Unit × LocalState :=
  let old := lookupBy st.accountsMem a.id
  let st1 := { st with
    accountFiles := setBy st.accountFiles a.id a
    accountsMem := setBy st.accountsMem a.id a }
  match old with
  | some _ => (.error "Cannot overwrite account with duplicate id", st1)
  | none => (.ok (), st1)

/-- One step of the modification loop in `LocalRepository::modify_account`. -/
def applyMod (a : Account) : AccountModification → Account
  | .disable => { a with enabled := false }
  | .updateName name => { a with name := name }
  | .updateNotes notes => { a with notes := notes }

/-- The modification loop of `LocalRepository::modify_account`
(src/src/repository/local.rs lines 228-247): changes applied in list
order. -/
def applyMods (a : Account) (changes : List AccountModification) : Account :=
  changes.foldl applyMod a

/-- Rust `LocalRepository::modify_account`: look the account up in the in-memory
index (error if absent), apply the changes in order, and write the result
back to the index and its file. -/
def LocalState.modifyAccount (st : LocalState) (id : Nat)
    (changes : List AccountModification) : Except String Unit × LocalState :=
  match lookupBy st.accountsMem id with
  | none => (.error "No such account", st)
  | some a => (.ok (), applyPlan st (id, applyMods a changes))

/-- The final `git commit -m message` of `run_command`, as run through
`cmd()` (src/src/repository/local.rs lines 27-41 and 276): plain
`git commit` with neither `-a` nor `--allow-empty` commits the staged
index, and exits nonzero with "nothing to commit" when the index equals
HEAD — `cmd()` turns that nonzero exit into an `Err`.  Since every write is
staged the moment it happens, the index is the modeled file state, and the
commit succeeds exactly when that state differs from the last committed
one, in which case HEAD advances to it. -/
def commitStep (st : LocalState) : Except String Unit × LocalState :=
  if st.accountFiles = st.headAccountFiles ∧
      st.transactionFiles = st.headTransactionFiles then
    (.error "nothing to commit", st)
  else
    (.ok (), { st with
      commits := st.commits + 1
      headAccountFiles := st.accountFiles
      headTransactionFiles := st.transactionFiles })

/-- Rust `LocalRepository::run_command` (src/src/repository/local.rs lines
266-278): dispatch on the command and, on success of the entity mutation,
run the final git commit (which itself fails when nothing changed). -/
def LocalState.runCommand (st : LocalState) (cmd : Command) :
    Except String Unit × LocalState :=
  let r :=
    match cmd with
    | .createAccount a => st.createAccount a
    | .updateAccount id mods => st.modifyAccount id mods
    | .addTransaction t => st.addTransaction t
  match r with
  | (.ok _, st2) => commitStep st2
  | e => e

/-- Sort order used by the local transactions read path:
`sort_unstable_by_key(|t| t.id)`. -/
def tleId (a b : Transaction) : Prop := a.id ≤ b.id

instance : DecidableRel tleId := fun a b => Nat.decLe a.id b.id

instance : IsTotal Transaction tleId := ⟨fun a b => Nat.le_total a.id b.id⟩

instance : IsTrans Transaction tleId := ⟨fun _ _ _ h h2 => Nat.le_trans h h2⟩

/-- Rust `LocalRepository::transactions` (src/src/repository/local.rs lines
290-301): read every transaction file, keep those in which the requested
account participates, and sort by transaction id. -/
def LocalState.transactions (st : LocalState) (id : Nat) : List Transaction :=
  List.insertionSort tleId
    ((st.transactionFiles.map Prod.snd).filter (fun t => t.accounts.contains id))

/-- Whether an `Except` is an error (`Result::is_err`). -/
def isErr {ε α : Type} : Except ε α → Bool
  | .error _ => true
  | .ok _ => false

instance {ε α : Type} [DecidableEq ε] [DecidableEq α] : DecidableEq (Except ε α) := fun a b =>
  match a, b with
  | .error x, .error y =>
    if h : x = y then isTrue (by rw [h]) else isFalse (by intro hc; cases hc; exact h rfl)
  | .ok x, .ok y =>
    if h : x = y then isTrue (by rw [h]) else isFalse (by intro hc; cases hc; exact h rfl)
  | .error _, .ok _ => isFalse (by intro hc; cases hc)
  | .ok _, .error _ => isFalse (by intro hc; cases hc)

/-- A map whose function fixes every element of the list is the identity. -/
theorem listMapNoop {α : Type} (l : List α) (f : α → α) (h : ∀ a ∈ l, f a = a) :
    l.map f = l := by
  induction l with
  | nil => rfl
  | cons a l ih =>
    simp only [List.map_cons, h a (by simp)]
    rw [ih (fun b hb => h b (by simp [hb]))]

/-- The value written by `setBy` occurs among the stored entities. -/
theorem mem_map_snd_setBy {α : Type} (l : List (Nat × α)) (id : Nat) (a : α) :
    a ∈ (setBy l id a).map Prod.snd := by
  induction l with
  | nil => simp [setBy]
  | cons p rest ih =>
    obtain ⟨k, x⟩ := p
    by_cases h : k = id <;> simp [setBy, h, ih]

/-- If some delta group fails its planning check, the whole planning pass
fails (the `collect` short-circuits on the first `Err`). -/
theorem planAll_error (mem : List (Nat × Account))
    (gs : List (Nat × List Amount))
    (h : ∃ g ∈ gs, isErr (planOne mem g.1 g.2) = true) :
    ∃ e, planAll mem gs = .error e := by
  induction gs with
  | nil => simp at h
  | cons g gs ih =>
    obtain ⟨k, vs⟩ := g
    rcases h with ⟨g2, hg2, herr⟩
    rcases List.mem_cons.mp hg2 with h1 | h1
    · subst h1
      rcases h2 : planOne mem k vs with e | p
      · exact ⟨e, by simp [planAll, h2]⟩
      · rw [h2] at herr; simp [isErr] at herr
    · rcases ih ⟨g2, h1, herr⟩ with ⟨e, he⟩
      rcases h2 : planOne mem k vs with e2 | p
      · exact ⟨e2, by simp [planAll, h2]⟩
      · exact ⟨e, by simp [planAll, h2, he]⟩

/-- Claim C2 (amended): on the local backend, an `AddTransaction` whose
deltas would drive some participating account's balance below zero in some
currency makes `run_command` fail, leaving the in-memory index, every
account file and the commit log unchanged — but the rejected transaction's
file has already been written to the `transactions/` collection, so the
transaction IS retrievable afterwards through the transactions read path. -/
theorem C2_local_negative_balance_atomicity (st : LocalState) (t : Transaction)
    (h : ∃ g ∈ groupByKey t.results,
      (lookupBy st.accountsMem g.1).isSome = true ∧
      isErr (planOne st.accountsMem g.1 g.2) = true) :
    (∃ e, st.runCommand (.addTransaction t) =
      (.error e,
       { st with transactionFiles := setBy st.transactionFiles t.id t })) ∧
    (∀ id2, id2 ∈ t.accounts →
      t ∈ (LocalState.transactions
        { st with transactionFiles := setBy st.transactionFiles t.id t } id2)) := by
  rcases planAll_error st.accountsMem (groupByKey t.results)
      (by rcases h with ⟨g, hg, _, herr⟩; exact ⟨g, hg, herr⟩) with ⟨e, he⟩
  constructor
  · refine ⟨e, ?_⟩
    simp [LocalState.runCommand, LocalState.addTransaction, he]
  · intro id2 hid2
    unfold LocalState.transactions
    rw [(List.perm_insertionSort tleId _).mem_iff]
    refine List.mem_filter.mpr ⟨mem_map_snd_setBy _ _ _, ?_⟩
    simpa using hid2

/-- The empty multi-currency balance. -/
def bal0 : Amounts := ([] : List (Currency × Int))

/-- Concrete ledger for claim C2: a physical account 1 and a virtual
account 2, both with empty balances. -/
def C2acctP : Account := ⟨1, "P", "", .physical, bal0, true⟩

def C2acctV : Account := ⟨2, "V", "", .virtual, bal0, true⟩

def C2st : LocalState :=
  ⟨[(1, C2acctP), (2, C2acctV)], [], [(1, C2acctP), (2, C2acctV)], 0,
   [(1, C2acctP), (2, C2acctV)], []⟩

/-- A payment of 100 EUR out of the empty accounts 1 and 2: it must be
rejected for driving both balances negative. -/
def C2t : Transaction := ⟨10, "", ⟨100, Currency.EUR⟩, .paid 1 2 "Landlord"⟩

/-- Counterexample to claim C2 as stated: the rejected transaction IS
retrievable afterwards — `run_command` fails, yet the transactions read
path for participant 1 returns it, because its file was written before the
balance check. -/
theorem C2_rejected_retrievable_cex :
    isErr (C2st.runCommand (.addTransaction C2t)).1 = true ∧
    C2t ∈ ((C2st.runCommand (.addTransaction C2t)).2.transactions 1) := by
  decide

theorem C2_local_negative_balance_atomicity_witness :
    ((∃ e, C2st.runCommand (.addTransaction C2t) =
      (.error e,
       { C2st with transactionFiles := setBy C2st.transactionFiles C2t.id C2t })) ∧
    (∀ id2, id2 ∈ C2t.accounts →
      C2t ∈ (LocalState.transactions
        { C2st with
            transactionFiles := setBy C2st.transactionFiles C2t.id C2t } id2))) :=
  C2_local_negative_balance_atomicity C2st C2t (by decide)

/-- Claim C4 (amended): creating an account whose id already exists fails
with the duplicate-id error and nothing is committed, but the command is
not mutation-free: both the on-disk account file and the in-memory index
entry for that id have already been replaced by the new account when the
check fires (`create` writes the file first, and `BTreeMap::insert`
replaces the entry before its returned old value is inspected). -/
theorem C4_duplicate_create_overwrites (st : LocalState) (a0 a : Account)
    (h : lookupBy st.accountsMem a.id = some a0) :
    st.runCommand (.createAccount a) =
      (.error "Cannot overwrite account with duplicate id",
       { st with
          accountFiles := setBy st.accountFiles a.id a
          accountsMem := setBy st.accountsMem a.id a }) := by
  simp [LocalState.runCommand, LocalState.createAccount, h]

/-- Concrete ledger for claim C4: one account with id 1. -/
def C4old : Account := ⟨1, "Old", "", .physical, bal0, true⟩

def C4new : Account := ⟨1, "New", "", .physical, bal0, true⟩

def C4st : LocalState :=
  ⟨[(1, C4old)], [], [(1, C4old)], 0, [(1, C4old)], []⟩

/-- Counterexample to claim C4 as stated: after the failing duplicate
`CreateAccount`, the stored account for id 1 is NOT what it was before the
command — both the in-memory index and the on-disk file now hold the new
account. -/
theorem C4_duplicate_create_cex :
    isErr (C4st.runCommand (.createAccount C4new)).1 = true ∧
    lookupBy (C4st.runCommand (.createAccount C4new)).2.accountsMem 1 ≠ some C4old ∧
    lookupBy (C4st.runCommand (.createAccount C4new)).2.accountFiles 1 ≠ some C4old := by
  decide

theorem C4_duplicate_create_overwrites_witness :
    C4st.runCommand (.createAccount C4new) =
      (.error "Cannot overwrite account with duplicate id",
       { C4st with
          accountFiles := setBy C4st.accountFiles C4new.id C4new
          accountsMem := setBy C4st.accountsMem C4new.id C4new }) :=
  C4_duplicate_create_overwrites C4st C4old C4new (by decide)

/-- Rust `enum TransactionType` from src/src/repository/sql.rs: the discriminant
stored in the `type` column. -/
inductive TransactionType where
  | received
  | paid
  | movePhys
  | moveVirt
  | convert
deriving DecidableEq, Repr

/-- Rust `struct TransactionDb` (src/src/repository/sql.rs lines 82-94): one row
of the `transactions` table; the two participant identifiers are normalised
into the generic `acc_1`/`acc_2` slots. -/
structure TransactionDb where
  id : Nat
  amount : Amount
  typ : TransactionType
  newAmount : Option Amount
  externalParty : Option String
  acc1 : Nat
  acc2 : Nat
  notes : String
deriving DecidableEq, Repr

/-- Rust `struct AccountDb` (src/src/repository/sql.rs lines 148-157): one row of
the `accounts` table; no balance column exists. -/
structure AccountDb where
  id : Nat
  typ : AccountType
  name : String
  notes : String
  enabled : Bool
deriving DecidableEq, Repr

/-- Rust `TransactionDb::to_transaction` (src/src/repository/sql.rs lines
96-146): reinterpret the generic row slots according to the `type`
discriminant; fails when a required optional column is NULL. -/
def TransactionDb.toTransaction (r : TransactionDb) : Option Transaction :=
  match r.typ with
  | .received =>
    r.externalParty.map fun src => ⟨r.id, r.notes, r.amount, .received src r.acc1 r.acc2⟩
  | .paid =>
    r.externalParty.map fun dst => ⟨r.id, r.notes, r.amount, .paid r.acc1 r.acc2 dst⟩
  | .movePhys => some ⟨r.id, r.notes, r.amount, .movePhys r.acc1 r.acc2⟩
  | .moveVirt => some ⟨r.id, r.notes, r.amount, .moveVirt r.acc1 r.acc2⟩
  | .convert =>
    r.newAmount.map fun na => ⟨r.id, r.notes, r.amount, .convert r.acc1 r.acc2 na⟩

/-- Rust `AccountDb::to_account` (src/src/repository/sql.rs lines 159-190): the
balance is recomputed on every read by folding the delta function over the
account's transactions, filtered to the deltas targeting this account. -/
def AccountDb.toAccount (r : AccountDb) (transactions : List Transaction) : Account :=
  ⟨r.id, r.name, r.notes, r.typ,
   Amounts.sum ((transactions.map
     (fun t => (t.results.filter (fun p => p.1 == r.id)).map Prod.snd)).flatten),
   r.enabled⟩

/-- The relational store (src/src/repository/sql.rs): the three tables, each
as a list of rows in insertion order (SQLite rowid order for these
append-only tables). -/
structure SqlState where
  accountsTable : List AccountDb
  transTable : List TransactionDb
  commandsTable : List Command
deriving DecidableEq, Repr

/-- Rust `collect::<Result<Vec<_>>>` over a row decoder: first failure wins. -/
def collectSome {α β : Type} (f : α → Option β) : List α → Option (List β)
  | [] => some []
  | a :: l =>
    match f a, collectSome f l with
    | some b, some bs => some (b :: bs)
    | _, _ => none

/-- Rust `SqlRepository::transactions` (src/src/repository/sql.rs lines 237-258):
`SELECT ... FROM transactions WHERE acc_1 = ?1 OR acc_2 = ?1` — no ORDER BY
clause, so rows come back in table (insertion) order — then decode each
row. -/
def SqlState.transactions (st : SqlState) (id : Nat) : Option (List Transaction) :=
  collectSome TransactionDb.toTransaction
    (st.transTable.filter (fun r => r.acc1 == id || r.acc2 == id))

/-- Rust `SqlRepository::account` (src/src/repository/sql.rs lines 260-279):
fetch the row (error when absent) and recompute the balance from the
account's transactions. -/
def SqlState.account (st : SqlState) (id : Nat) : Option Account :=
  match st.accountsTable.find? (fun r => r.id == id) with
  | none => none
  | some r => (st.transactions id).map fun ts => r.toAccount ts

/-- One SQL `SET` assignment of the UpdateAccount arm
(src/src/repository/sql.rs lines 329-351). -/
def sqlApplyMod (r : AccountDb) : AccountModification → AccountDb
  | .disable => { r with enabled := false }
  | .updateName n => { r with name := n }
  | .updateNotes n => { r with notes := n }

/-- Rust `SqlRepository::run_command` (src/src/repository/sql.rs lines 303-416):
one database transaction that appends the command to the `commands` log and
applies the entity mutation, then commits.  On any failure the transaction
is rolled back, which the embedding expresses by returning only the error.
There is no negative-balance check anywhere in this function.  For the
UpdateAccount arm, an empty modification list produces a malformed
`UPDATE accounts SET  WHERE id = ?` statement (an SQL error), and duplicate
`SET` assignments to one column follow SQLite semantics: the rightmost
assignment wins, which sequential application in list order realises. -/
def SqlState.runCommand (st : SqlState) (cmd : Command) : Except String SqlState :=
  let st0 := { st with commandsTable := st.commandsTable ++ [cmd] }
  match cmd with
  | .createAccount a =>
    if st0.accountsTable.any (fun r => r.id == a.id) then
      .error "UNIQUE constraint failed on accounts"
    else
      .ok { st0 with
        accountsTable := st0.accountsTable ++ [⟨a.id, a.typ, a.name, a.notes, a.enabled⟩] }
  | .updateAccount id changes =>
    if changes.isEmpty then .error "SQL syntax error in UPDATE"
    else
      .ok { st0 with
        accountsTable := st0.accountsTable.map
          (fun r => if r.id == id then changes.foldl sqlApplyMod r else r) }
  | .addTransaction t =>
    let row : TransactionDb :=
      match t.inner with
      | .received src dst dstVirt => ⟨t.id, t.amount, .received, none, some src, dst, dstVirt, t.notes⟩
      | .paid src srcVirt dst => ⟨t.id, t.amount, .paid, none, some dst, src, srcVirt, t.notes⟩
      | .movePhys src dst => ⟨t.id, t.amount, .movePhys, none, none, src, dst, t.notes⟩
      | .moveVirt src dst => ⟨t.id, t.amount, .moveVirt, none, none, src, dst, t.notes⟩
      | .convert acc accVirt na => ⟨t.id, t.amount, .convert, some na, none, acc, accVirt, t.notes⟩
    if st0.transTable.any (fun r => r.id == t.id) then
      .error "UNIQUE constraint failed on transactions"
    else
      .ok { st0 with transTable := st0.transTable ++ [row] }

/-- Concrete ledger for claim C1: physical account 1 and virtual account 2,
no transactions yet, so both balances are empty. -/
def C1acctP : AccountDb := ⟨1, .physical, "P", "", true⟩

def C1acctV : AccountDb := ⟨2, .virtual, "V", "", true⟩

def C1st : SqlState := ⟨[C1acctP, C1acctV], [], []⟩

/-- A payment of 100 EUR out of the empty accounts — the deltas drive both
participants' EUR balances to −100. -/
def C1t : Transaction := ⟨3, "", ⟨100, Currency.EUR⟩, .paid 1 2 "Landlord"⟩

/-- The state the SQL backend actually commits for that payment. -/
def C1st1 : SqlState :=
  ⟨[C1acctP, C1acctV],
   [⟨3, ⟨100, Currency.EUR⟩, .paid, none, some "Landlord", 1, 2, ""⟩],
   [.addTransaction C1t]⟩

/-- Claim C1 evaluated at the failing input: the SQL backend's
`run_command` SUCCEEDS on an AddTransaction whose deltas drive account 1's
EUR balance to −100 — the command log and transactions table gain the
rejected-by-spec entries, the transaction is retrievable afterwards, and
the recomputed balance of account 1 is negative.  This contradicts the
specification's §4.3 negative-balance check, which the function does not
contain. -/
theorem C1_sql_negative_commit :
    C1st.runCommand (.addTransaction C1t) = .ok C1st1 ∧
    C1st1.account 1 =
      some ⟨1, "P", "", .physical, ([(Currency.EUR, -100)] : List (Currency × Int)), true⟩ ∧
    C1st1.transactions 1 = some [C1t] := by
  decide

/-- Last `UpdateName` in a modification list, if any (later entries
override earlier ones). -/
def lastUpdateName : List AccountModification → Option String
  | [] => none
  | .updateName s :: cs => some ((lastUpdateName cs).getD s)
  | _ :: cs => lastUpdateName cs

/-- Last `UpdateNotes` in a modification list, if any. -/
def lastUpdateNotes : List AccountModification → Option String
  | [] => none
  | .updateNotes s :: cs => some ((lastUpdateNotes cs).getD s)
  | _ :: cs => lastUpdateNotes cs

/-- Whether a modification is `Disable`. -/
def isDisable : AccountModification → Bool
  | .disable => true
  | _ => false

theorem applyMods_lastWins (a : Account) (changes : List AccountModification) :
    applyMods a changes =
      ⟨a.id, (lastUpdateName changes).getD a.name,
       (lastUpdateNotes changes).getD a.notes, a.typ, a.current,
       if changes.any isDisable then false else a.enabled⟩ := by
  induction changes generalizing a with
  | nil => simp [applyMods, lastUpdateName, lastUpdateNotes, List.any]
  | cons c cs ih =>
    have step : applyMods a (c :: cs) = applyMods (applyMod a c) cs := rfl
    rw [step, ih]
    cases c <;>
      simp [applyMod, lastUpdateName, lastUpdateNotes, isDisable]

theorem sqlApplyMods_lastWins (r : AccountDb) (changes : List AccountModification) :
    changes.foldl sqlApplyMod r =
      ⟨r.id, r.typ, (lastUpdateName changes).getD r.name,
       (lastUpdateNotes changes).getD r.notes,
       if changes.any isDisable then false else r.enabled⟩ := by
  induction changes generalizing r with
  | nil => simp [lastUpdateName, lastUpdateNotes, List.any]
  | cons c cs ih =>
    have step : List.foldl sqlApplyMod r (c :: cs) = List.foldl sqlApplyMod (sqlApplyMod r c) cs := rfl
    rw [step, ih]
    cases c <;>
      simp [sqlApplyMod, lastUpdateName, lastUpdateNotes, isDisable]

/-- Claim C6 (amended): `UpdateAccount(id, mods)` fails with the not-found
error on the LOCAL backend when no account with that id exists, leaving the
state unchanged; on the SQL backend an unknown id instead makes the UPDATE
affect zero rows and the command succeeds without mutating any account row.
On both backends the modifications are applied in list order so that of
several modifications of the same kind the last one wins, and the account's
current balance is untouched (the local backend copies `current` unchanged;
the SQL backend stores no balance and leaves the transactions it is
recomputed from unchanged).  On the local backend the mutation is followed
by the final git commit, which succeeds exactly when the staged repository
content differs from the last commit; a modification list that leaves the
serialized content identical (an empty list, or no-op changes, on an
otherwise clean tree) makes `git commit` exit nonzero ("nothing to
commit") and `run_command` return an error, the no-op mutation having
already been applied to the index and the in-memory account. -/
theorem C6_update_account_behaviour :
    (∀ (st : LocalState) (id : Nat) (changes : List AccountModification),
      lookupBy st.accountsMem id = none →
      st.runCommand (.updateAccount id changes) = (.error "No such account", st)) ∧
    (∀ (st : LocalState) (id : Nat) (changes : List AccountModification) (a : Account),
      lookupBy st.accountsMem id = some a →
      ¬ ((applyPlan st (id, applyMods a changes)).accountFiles = st.headAccountFiles ∧
         st.transactionFiles = st.headTransactionFiles) →
      st.runCommand (.updateAccount id changes) =
        (.ok (), { applyPlan st (id, applyMods a changes) with
            commits := st.commits + 1
            headAccountFiles := (applyPlan st (id, applyMods a changes)).accountFiles
            headTransactionFiles := st.transactionFiles })) ∧
    (∀ (st : LocalState) (id : Nat) (changes : List AccountModification) (a : Account),
      lookupBy st.accountsMem id = some a →
      (applyPlan st (id, applyMods a changes)).accountFiles = st.headAccountFiles →
      st.transactionFiles = st.headTransactionFiles →
      st.runCommand (.updateAccount id changes) =
        (.error "nothing to commit", applyPlan st (id, applyMods a changes))) ∧
    (∀ (a : Account) (changes : List AccountModification),
      applyMods a changes =
        ⟨a.id, (lastUpdateName changes).getD a.name,
         (lastUpdateNotes changes).getD a.notes, a.typ, a.current,
         if changes.any isDisable then false else a.enabled⟩) ∧
    (∀ (r : AccountDb) (changes : List AccountModification),
      changes.foldl sqlApplyMod r =
        ⟨r.id, r.typ, (lastUpdateName changes).getD r.name,
         (lastUpdateNotes changes).getD r.notes,
         if changes.any isDisable then false else r.enabled⟩) ∧
    (∀ (sq : SqlState) (id : Nat) (changes : List AccountModification),
      changes ≠ [] →
      sq.accountsTable.all (fun r => r.id != id) = true →
      sq.runCommand (.updateAccount id changes) =
        .ok { sq with commandsTable := sq.commandsTable ++ [.updateAccount id changes] }) ∧
    (∀ (sq : SqlState) (id : Nat) (changes : List AccountModification),
      changes ≠ [] →
      ∃ sq2, sq.runCommand (.updateAccount id changes) = .ok sq2 ∧
        sq2.transTable = sq.transTable) := by
  refine ⟨?_, ?_, ?_, applyMods_lastWins, sqlApplyMods_lastWins, ?_, ?_⟩
  · intro st aid changes h
    simp [LocalState.runCommand, LocalState.modifyAccount, h]
  · intro st aid changes a h hne
    have hne2 : ¬ (setBy st.accountFiles aid (applyMods a changes) =
        st.headAccountFiles ∧ st.transactionFiles = st.headTransactionFiles) := by
      simpa [applyPlan] using hne
    simp [LocalState.runCommand, LocalState.modifyAccount, h, commitStep,
      applyPlan, hne2]
  · intro st aid changes a h h1 h2
    have h1b : setBy st.accountFiles aid (applyMods a changes) =
        st.headAccountFiles := by
      simpa [applyPlan] using h1
    simp [LocalState.runCommand, LocalState.modifyAccount, h, commitStep,
      applyPlan, h1b, h2]
  · intro sq aid changes hne hall
    have hmap : sq.accountsTable.map
        (fun r => if r.id = aid then changes.foldl sqlApplyMod r else r) =
        sq.accountsTable := by
      refine listMapNoop _ _ ?_
      intro r hr
      have h3 := List.all_eq_true.mp hall r hr
      simp only [bne_iff_ne, ne_eq] at h3
      simp [h3]
    simp [SqlState.runCommand, hne, hmap]
  · intro sq aid changes hne
    exact ⟨{ sq with
        commandsTable := sq.commandsTable ++ [.updateAccount aid changes]
        accountsTable := sq.accountsTable.map
          (fun r => if r.id == aid then changes.foldl sqlApplyMod r else r) },
      by simp [SqlState.runCommand, hne], rfl⟩

/-- Concrete inputs for the C6 counterexample and witness. -/
def C6sq : SqlState := ⟨[⟨1, .physical, "P", "", true⟩], [], []⟩

def C6loc : LocalState :=
  ⟨[(1, C4old)], [], [(1, C4old)], 0, [(1, C4old)], []⟩

def C6mods : List AccountModification := [.updateName "first", .updateName "second"]

/-- A modification list that is a no-op on `C4old`: it sets the name to the
value it already has, so the serialized account is unchanged. -/
def C6noop : List AccountModification := [.updateName "Old"]

/-- Counterexample to claim C6 as stated: on the SQL backend, updating an
account id that does not exist (id 9) does NOT fail with a not-found error;
the UPDATE matches zero rows and `run_command` succeeds. -/
theorem C6_sql_unknown_id_cex :
    isErr (C6sq.runCommand (.updateAccount 9 C6mods)) = false := by
  decide

theorem C6_update_account_behaviour_witness :
    C6loc.runCommand (.updateAccount 9 C6mods) = (.error "No such account", C6loc) ∧
    C6loc.runCommand (.updateAccount 1 C6mods) =
      (.ok (), { applyPlan C6loc (1, applyMods C4old C6mods) with
          commits := C6loc.commits + 1
          headAccountFiles := (applyPlan C6loc (1, applyMods C4old C6mods)).accountFiles
          headTransactionFiles := C6loc.transactionFiles }) ∧
    C6loc.runCommand (.updateAccount 1 C6noop) =
      (.error "nothing to commit", applyPlan C6loc (1, applyMods C4old C6noop)) ∧
    C6sq.runCommand (.updateAccount 9 C6mods) =
      .ok { C6sq with commandsTable := C6sq.commandsTable ++ [.updateAccount 9 C6mods] } ∧
    (∃ sq2, C6sq.runCommand (.updateAccount 1 C6mods) = .ok sq2 ∧
      sq2.transTable = C6sq.transTable) := by
  refine ⟨C6_update_account_behaviour.1 C6loc 9 C6mods (by decide),
    C6_update_account_behaviour.2.1 C6loc 1 C6mods C4old (by decide) (by decide),
    C6_update_account_behaviour.2.2.1 C6loc 1 C6noop C4old
      (by decide) (by decide) (by decide),
    C6_update_account_behaviour.2.2.2.2.2.1 C6sq 9 C6mods (by decide) (by decide),
    C6_update_account_behaviour.2.2.2.2.2.2 C6sq 1 C6mods (by decide)⟩

/-- Decoding a row yields a transaction whose participants are exactly the
row's `acc_1` and `acc_2` slots, in that order. -/
theorem toTransaction_accounts (r : TransactionDb) (t : Transaction)
    (h : r.toTransaction = some t) : t.accounts = [r.acc1, r.acc2] := by
  unfold TransactionDb.toTransaction at h
  cases htyp : r.typ <;> rw [htyp] at h
  · cases hep : r.externalParty <;> rw [hep] at h <;> simp at h
    subst h; rfl
  · cases hep : r.externalParty <;> rw [hep] at h <;> simp at h
    subst h; rfl
  · simp at h; subst h; rfl
  · simp at h; subst h; rfl
  · cases hna : r.newAmount <;> rw [hna] at h <;> simp at h
    subst h; rfl

/-- Membership characterisation of a successful `collect` over a row
decoder: the output holds exactly the decodings of the input rows. -/
theorem collectSome_mem_iff {α β : Type} (f : α → Option β) :
    ∀ (l : List α) (ts : List β), collectSome f l = some ts →
      ∀ t, t ∈ ts ↔ ∃ r ∈ l, f r = some t := by
  intro l
  induction l with
  | nil =>
    intro ts h t
    simp [collectSome] at h
    subst h; simp
  | cons a l ih =>
    intro ts h t
    unfold collectSome at h
    cases hf : f a with
    | none => rw [hf] at h; simp at h
    | some b =>
      rw [hf] at h
      cases hrec : collectSome f l with
      | none => rw [hrec] at h; simp at h
      | some bs =>
        rw [hrec] at h
        simp at h
        subst h
        constructor
        · intro hmem
          rcases List.mem_cons.mp hmem with hmem | hmem
          · exact ⟨a, by simp, by rw [hf, hmem]⟩
          · rcases (ih bs hrec t).mp hmem with ⟨r, hr, hrt⟩
            exact ⟨r, by simp [hr], hrt⟩
        · rintro ⟨r, hr, hrt⟩
          rcases List.mem_cons.mp hr with hr | hr
          · subst hr
            rw [hf] at hrt
            simp at hrt
            simp [hrt]
          · exact List.mem_cons.mpr (.inr ((ih bs hrec t).mpr ⟨r, hr, hrt⟩))

/-- Claim C8 (amended): the local backend's transactions-of-account read
path returns exactly the transactions in which the account participates,
sorted ascending by transaction identifier.  The SQL backend's read path
also returns exactly the participating transactions, but its query has no
ORDER BY clause, so they come back in table (insertion) order, which is
ascending-identifier order only when rows were inserted in identifier
order. -/
theorem C8_transactions_read_path :
    (∀ (st : LocalState) (aid : Nat),
      List.Sorted tleId (st.transactions aid) ∧
      (st.transactions aid).Perm
        ((st.transactionFiles.map Prod.snd).filter
          (fun t => t.accounts.contains aid))) ∧
    (∀ (st : SqlState) (aid : Nat) (ts : List Transaction),
      st.transactions aid = some ts →
      ∀ t, t ∈ ts ↔
        ∃ r ∈ st.transTable, r.toTransaction = some t ∧ aid ∈ t.accounts) := by
  constructor
  · intro st aid
    exact ⟨List.sorted_insertionSort tleId _, List.perm_insertionSort tleId _⟩
  · intro st aid ts h t
    rw [collectSome_mem_iff TransactionDb.toTransaction _ ts h t]
    constructor
    · rintro ⟨r, hr, hrt⟩
      rcases List.mem_filter.mp hr with ⟨hrm, hcond⟩
      refine ⟨r, hrm, hrt, ?_⟩
      rw [toTransaction_accounts r t hrt]
      simp at hcond
      rcases hcond with h2 | h2 <;> simp [h2]
    · rintro ⟨r, hr, hrt, hpart⟩
      refine ⟨r, List.mem_filter.mpr ⟨hr, ?_⟩, hrt⟩
      rw [toTransaction_accounts r t hrt] at hpart
      simp at hpart
      rcases hpart with h2 | h2 <;> simp [h2]

/-- Concrete inputs for the C8 counterexample: two rows referencing account
5 inserted with descending identifiers 2, 1. -/
def C8r1 : TransactionDb := ⟨2, ⟨100, Currency.EUR⟩, .moveVirt, none, none, 5, 6, ""⟩

def C8r2 : TransactionDb := ⟨1, ⟨100, Currency.EUR⟩, .moveVirt, none, none, 5, 7, ""⟩

def C8st : SqlState := ⟨[], [C8r1, C8r2], []⟩

/-- Counterexample to claim C8 as stated: the SQL backend returns account
5's transactions in table order with identifiers [2, 1], which is not
sorted ascending by identifier. -/
theorem C8_sql_unsorted_cex :
    (C8st.transactions 5).map (fun l => l.map Transaction.id) = some [2, 1] ∧
    ¬ List.Sorted (fun a b : Nat => a ≤ b) [2, 1] := by
  decide

theorem C8_transactions_read_path_witness :
    ∀ t, t ∈ [(⟨2, "", ⟨100, Currency.EUR⟩, .moveVirt 5 6⟩ : Transaction),
              ⟨1, "", ⟨100, Currency.EUR⟩, .moveVirt 5 7⟩] ↔
      ∃ r ∈ C8st.transTable, r.toTransaction = some t ∧ 5 ∈ t.accounts :=
  C8_transactions_read_path.2 C8st 5 _ (by decide)

/-- The character Rust prints for a decimal digit. -/
def digitChar : Nat → Char
  | 0 => '0'
  | 1 => '1'
  | 2 => '2'
  | 3 => '3'
  | 4 => '4'
  | 5 => '5'
  | 6 => '6'
  | 7 => '7'
  | 8 => '8'
  | 9 => '9'
  | _ => '?'

/-- Numeric value of a decimal digit character. -/
def digitVal (c : Char) : Nat := c.toNat - 48

/-- Little-endian decimal digits with explicit fuel (the fuel makes the
definition structurally recursive; any fuel of at least `n` gives the
decimal digits of `n`). -/
def digitsLE : Nat → Nat → List Nat
  | 0, _ => []
  | _ + 1, 0 => []
  | f + 1, n + 1 => ((n + 1) % 10) :: digitsLE f ((n + 1) / 10)

/-- Rust `Display` for an unsigned decimal number. -/
def natStr (n : Nat) : List Char :=
  if n = 0 then ['0'] else (digitsLE n n).reverse.map digitChar

/-- Rust `Display` for `i32` (`{}`): minus sign then decimal digits. -/
def intStr (i : Int) : List Char :=
  if i < 0 then '-' :: natStr i.natAbs else natStr i.toNat

/-- Parse a non-empty all-digit string as a decimal number. -/
def parseNatDigits (cs : List Char) : Option Nat :=
  if cs.isEmpty then none
  else if cs.all Char.isDigit then
    some (cs.foldl (fun a c => 10 * a + digitVal c) 0)
  else none

/-- Rust `str::parse::<i32>`: an optional sign, then decimal digits, with
the i32 range check. -/
def parseI32 (cs : List Char) : Option Int :=
  match cs with
  | [] => none
  | c :: rest =>
    if c = '-' then
      (parseNatDigits rest).bind fun n =>
        if (n : Int) ≤ 2147483648 then some (-(n : Int)) else none
    else if c = '+' then
      (parseNatDigits rest).bind fun n =>
        if (n : Int) ≤ 2147483647 then some ((n : Int)) else none
    else
      (parseNatDigits cs).bind fun n =>
        if (n : Int) ≤ 2147483647 then some ((n : Int)) else none

/-- Rust `str::split_once`: split at the first occurrence of a separator. -/
def splitOnce (sep : Char) : List Char → Option (List Char × List Char)
  | [] => none
  | c :: rest =>
    if c = sep then some ([], rest)
    else (splitOnce sep rest).map fun p => (c :: p.1, p.2)

/-- Rust `Amount::parse_num` (src/src/types.rs lines 164-173): either a whole
number of major units scaled by 100, or `whole.cents` with exactly two
digit cents. -/
def parseNum (s : List Char) : Option Int :=
  match parseI32 s with
  | some x => some (x * 100)
  | none =>
    match splitOnce '.' s with
    | none => none
    | some (whole, cents) =>
      if cents.length != 2 || cents.any (fun c => !(c.isDigit)) then none
      else
        match parseI32 whole, parseI32 cents with
        | some w, some cv => some (w * 100 + cv)
        | _, _ => none

/-- Rust `{:02}` of the fractional part: zero-pad to width two, sign aware
(a negative one-digit remainder like -5 prints as "-5"). -/
def pad2 (i : Int) : List Char :=
  if 0 ≤ i ∧ i < 10 then '0' :: intStr i else intStr i

/-- Rust `impl Display for Amount` (src/src/types.rs lines 174-188):
`value/100`, then `.{:02}` of `value % 100` when non-zero (Rust `/` and `%`
on `i32` truncate toward zero), then a space and the currency code. -/
def Amount.display (a : Amount) : List Char :=
  intStr (a.value.tdiv 100) ++
  (if a.value.tmod 100 ≠ 0 then '.' :: pad2 (a.value.tmod 100) else []) ++
  ' ' :: [a.cur.c1, a.cur.c2, a.cur.c3]

/-- Rust `impl FromStr for Currency` (src/src/types.rs lines 124-138): exactly
three ASCII upper-case characters. -/
def Currency.fromStr (cs : List Char) : Option Currency :=
  match cs with
  | [a, b, c] =>
    if a.isUpper && b.isUpper && c.isUpper then some ⟨a, b, c⟩ else none
  | _ => none

/-- Rust `impl FromStr for Amount` (src/src/types.rs lines 189-200): split at
the first space, parse the number and the currency. -/
def Amount.fromStr (cs : List Char) : Option Amount :=
  match splitOnce ' ' cs with
  | none => none
  | some (amount, currency) =>
    match parseNum amount, Currency.fromStr currency with
    | some v, some c => some ⟨v, c⟩
    | _, _ => none

theorem digitChar_isDigit {d : Nat} (h : d < 10) : (digitChar d).isDigit = true := by
  interval_cases d <;> decide

theorem digitVal_digitChar {d : Nat} (h : d < 10) : digitVal (digitChar d) = d := by
  interval_cases d <;> decide

theorem digitsLE_eq_digits : ∀ (f n : Nat), n ≤ f → digitsLE f n = Nat.digits 10 n := by
  intro f
  induction f with
  | zero =>
    intro n h
    interval_cases n
    simp [digitsLE]
  | succ f ih =>
    intro n h
    match n with
    | 0 => simp [digitsLE]
    | m + 1 =>
      rw [show digitsLE (f + 1) (m + 1) = ((m + 1) % 10) :: digitsLE f ((m + 1) / 10) from rfl]
      rw [ih ((m + 1) / 10) (by omega)]
      rw [Nat.digits_def' (by norm_num : (1 : ℕ) < 10) (Nat.succ_pos m)]

theorem natStr_ne_nil (n : Nat) : natStr n ≠ [] := by
  unfold natStr
  by_cases h : n = 0
  · simp [h]
  · rw [if_neg h, digitsLE_eq_digits n n le_rfl]
    simp [Nat.digits_ne_nil_iff_ne_zero.mpr h]

theorem natStr_all_digits (n : Nat) : ∀ ch ∈ natStr n, ch.isDigit = true := by
  unfold natStr
  by_cases h : n = 0
  · rw [if_pos h]
    intro ch hch
    simp at hch
    subst hch
    decide
  · rw [if_neg h, digitsLE_eq_digits n n le_rfl]
    intro ch hch
    simp at hch
    obtain ⟨d, hd, rfl⟩ := hch
    exact digitChar_isDigit (Nat.digits_lt_base (by norm_num) hd)

theorem foldr_digits_eq_ofDigits (ds : List Nat) (h : ∀ d ∈ ds, d < 10) :
    ds.foldr (fun d a => 10 * a + digitVal (digitChar d)) 0 = Nat.ofDigits 10 ds := by
  induction ds with
  | nil => simp [Nat.ofDigits]
  | cons d ds ih =>
    simp only [List.foldr_cons, Nat.ofDigits_cons,
      ih (fun x hx => h x (by simp [hx])), digitVal_digitChar (h d (by simp))]
    omega

theorem parseNatDigits_natStr (n : Nat) : parseNatDigits (natStr n) = some n := by
  by_cases h : n = 0
  · subst h; decide
  · unfold parseNatDigits
    have hne := natStr_ne_nil n
    have hall : (natStr n).all Char.isDigit = true :=
      List.all_eq_true.mpr (natStr_all_digits n)
    rw [if_neg (by simpa [List.isEmpty_iff] using hne), if_pos hall]
    congr 1
    unfold natStr
    rw [if_neg h, digitsLE_eq_digits n n le_rfl, List.foldl_map, List.foldl_reverse]
    rw [foldr_digits_eq_ofDigits _ (fun d hd => Nat.digits_lt_base (by norm_num) hd)]
    exact Nat.ofDigits_digits 10 n

theorem parseNatDigits_none_of_nondigit (cs : List Char) (c0 : Char)
    (hm : c0 ∈ cs) (hnd : c0.isDigit = false) : parseNatDigits cs = none := by
  have hne : cs ≠ [] := List.ne_nil_of_mem hm
  have hnall : ¬ cs.all Char.isDigit = true := fun hall => by
    have h2 := List.all_eq_true.mp hall c0 hm
    rw [hnd] at h2
    exact Bool.false_ne_true h2
  unfold parseNatDigits
  rw [if_neg (by simpa [List.isEmpty_iff] using hne), if_neg hnall]

theorem parseI32_digits_branch (cs : List Char) (hne : cs ≠ [])
    (hd : ∀ ch ∈ cs, ch.isDigit = true) :
    parseI32 cs = (parseNatDigits cs).bind
      (fun n => if (n : Int) ≤ 2147483647 then some ((n : Int)) else none) := by
  cases cs with
  | nil => exact absurd rfl hne
  | cons c rest =>
    have hcd := hd c (by simp)
    have h1 : c ≠ '-' := by intro e; rw [e] at hcd; exact absurd hcd (by decide)
    have h2 : c ≠ '+' := by intro e; rw [e] at hcd; exact absurd hcd (by decide)
    simp [parseI32, h1, h2]

theorem parseI32_natStr (n : Nat) (h : n ≤ 2147483647) :
    parseI32 (natStr n) = some ((n : Int)) := by
  rw [parseI32_digits_branch _ (natStr_ne_nil n) (natStr_all_digits n),
    parseNatDigits_natStr]
  simp [h]

theorem splitOnce_append (sep : Char) (pre post : List Char) (h : sep ∉ pre) :
    splitOnce sep (pre ++ sep :: post) = some (pre, post) := by
  induction pre with
  | nil => simp [splitOnce]
  | cons c cs ih =>
    have hc : c ≠ sep := by intro e; exact h (by simp [e])
    have ih2 := ih (fun hm => h (by simp [hm]))
    simp [splitOnce, hc, ih2]

theorem tdiv_coe100 (a : Nat) : (a : Int).tdiv 100 = ((a / 100 : Nat) : Int) := rfl

theorem tmod_coe100 (a : Nat) : (a : Int).tmod 100 = ((a % 100 : Nat) : Int) := rfl

theorem intStr_coe (n : Nat) : intStr (n : Int) = natStr n := by
  unfold intStr
  rw [if_neg (Int.not_lt.mpr (Int.natCast_nonneg n)), Int.toNat_natCast]

/-- The two cent characters the display produces for a non-zero remainder. -/
def centsRepr (m : Nat) : List Char :=
  if m < 10 then '0' :: natStr m else natStr m

theorem pad2_coe (m : Nat) : pad2 (m : Int) = centsRepr m := by
  unfold pad2 centsRepr
  by_cases h : m < 10
  · rw [if_pos ⟨Int.natCast_nonneg m, by exact_mod_cast h⟩, if_pos h, intStr_coe]
  · rw [if_neg (fun hc => h (by exact_mod_cast hc.2)), if_neg h, intStr_coe]

theorem centsRepr_facts (m : Nat) (h1 : m ≠ 0) (h2 : m < 100) :
    (centsRepr m).length = 2 ∧ (∀ ch ∈ centsRepr m, ch.isDigit = true) ∧
    parseNatDigits (centsRepr m) = some m := by
  interval_cases m <;> decide

theorem parseI32_centsRepr (m : Nat) (h1 : m ≠ 0) (h2 : m < 100) :
    parseI32 (centsRepr m) = some ((m : Int)) := by
  obtain ⟨hlen, hdig, hparse⟩ := centsRepr_facts m h1 h2
  have hne : centsRepr m ≠ [] := by
    intro e; rw [e] at hlen; simp at hlen
  rw [parseI32_digits_branch _ hne hdig, hparse]
  have h3 : m ≤ 2147483647 := by omega
  simp [h3]

theorem natStr_no_dot (q : Nat) : ('.' : Char) ∉ natStr q := fun hm =>
  absurd (natStr_all_digits q _ hm) (by decide)

theorem natStr_no_space (q : Nat) : (' ' : Char) ∉ natStr q := fun hm =>
  absurd (natStr_all_digits q _ hm) (by decide)

theorem parseI32_dotted_none (q : Nat) (rest : List Char) :
    parseI32 (natStr q ++ '.' :: rest) = none := by
  cases hq : natStr q with
  | nil => exact absurd hq (natStr_ne_nil q)
  | cons c0 cs =>
    have hc0 : c0.isDigit = true := natStr_all_digits q c0 (by rw [hq]; simp)
    have h1 : c0 ≠ '-' := by intro e; rw [e] at hc0; exact absurd hc0 (by decide)
    have h2 : c0 ≠ '+' := by intro e; rw [e] at hc0; exact absurd hc0 (by decide)
    have hdot : ('.' : Char) ∈ c0 :: (cs ++ '.' :: rest) := by simp
    simp [parseI32, h1, h2,
      parseNatDigits_none_of_nondigit _ '.' hdot (by decide)]

theorem currency_fromStr_self (c : Currency) (hc : c.valid = true) :
    Currency.fromStr [c.c1, c.c2, c.c3] = some c := by
  obtain ⟨a, b, d⟩ := c
  simp only [Currency.valid, Bool.and_eq_true] at hc
  obtain ⟨⟨h1, h2⟩, h3⟩ := hc
  simp [Currency.fromStr, h1, h2, h3]

theorem amount_roundtrip_nonneg (nv : Nat) (hnv : nv < 2147483648) (c : Currency)
    (hc : c.valid = true) :
    Amount.fromStr (Amount.display ⟨(nv : Int), c⟩) = some ⟨(nv : Int), c⟩ := by
  have hq : nv / 100 ≤ 2147483647 := by omega
  have hcur := currency_fromStr_self c hc
  by_cases hm : nv % 100 = 0
  · have hdisp : Amount.display ⟨(nv : Int), c⟩ =
        natStr (nv / 100) ++ ' ' :: [c.c1, c.c2, c.c3] := by
      unfold Amount.display
      rw [tdiv_coe100, tmod_coe100, intStr_coe, hm]
      simp
    rw [hdisp]
    unfold Amount.fromStr
    rw [splitOnce_append ' ' _ _ (natStr_no_space _)]
    have hpn : parseNum (natStr (nv / 100)) =
        some (((nv / 100 : Nat) : Int) * 100) := by
      unfold parseNum
      rw [parseI32_natStr _ hq]
    simp only [hpn, hcur]
    have hval : (((nv / 100 : Nat) : Int) * 100) = ((nv : Int)) := by omega
    rw [hval]
  · have hm99 : nv % 100 < 100 := by omega
    obtain ⟨hlen, hdig, hparse⟩ := centsRepr_facts (nv % 100) hm hm99
    have hdisp : Amount.display ⟨(nv : Int), c⟩ =
        (natStr (nv / 100) ++ '.' :: centsRepr (nv % 100)) ++
          ' ' :: [c.c1, c.c2, c.c3] := by
      have hne0 : (((nv % 100 : Nat) : Int)) ≠ 0 := by exact_mod_cast hm
      unfold Amount.display
      rw [tdiv_coe100, tmod_coe100, intStr_coe, pad2_coe, if_pos hne0]
    rw [hdisp]
    unfold Amount.fromStr
    have hnospace : (' ' : Char) ∉ natStr (nv / 100) ++ '.' :: centsRepr (nv % 100) := by
      intro hmem
      rcases List.mem_append.mp hmem with h2 | h2
      · exact natStr_no_space _ h2
      · rcases List.mem_cons.mp h2 with h3 | h3
        · exact absurd h3 (by decide)
        · exact absurd (hdig _ h3) (by decide)
    rw [splitOnce_append ' ' _ _ hnospace]
    have hany : ((centsRepr (nv % 100)).any fun ch => !(ch.isDigit)) = false := by
      rw [List.any_eq_false]
      intro ch hch
      simp [hdig ch hch]
    have hpn : parseNum (natStr (nv / 100) ++ '.' :: centsRepr (nv % 100)) =
        some (((nv / 100 : Nat) : Int) * 100 + ((nv % 100 : Nat) : Int)) := by
      unfold parseNum
      rw [parseI32_dotted_none,
        splitOnce_append '.' _ _ (natStr_no_dot _)]
      simp [hlen, hany, parseI32_natStr _ hq, parseI32_centsRepr _ hm hm99]
    simp only [hpn, hcur]
    have hval : (((nv / 100 : Nat) : Int) * 100 + ((nv % 100 : Nat) : Int)) =
        ((nv : Int)) := by omega
    rw [hval]

/-- Claim C5 (amended): parsing the display form of an `Amount` yields an
equal `Amount` for every amount whose minor-unit value is non-negative (and
in i32 range, with a well-formed currency); `"12.34 USD"` parses to
minor-unit value 1234 with currency USD, and `"12.3 USD"` fails to parse.
The round trip does NOT hold for every `Amount`: a negative value with a
non-zero fractional part displays its remainder with an embedded sign
(Rust `%` keeps the dividend's sign), producing a string such as
`"0.-5 USD"` that fails to parse back. -/
theorem C5_amount_roundtrip :
    (∀ a : Amount, 0 ≤ a.value → a.value < 2147483648 → a.cur.valid = true →
      Amount.fromStr (Amount.display a) = some a) ∧
    Amount.fromStr ("12.34 USD".toList) = some ⟨1234, Currency.USD⟩ ∧
    Amount.fromStr ("12.3 USD".toList) = none := by
  refine ⟨?_, by decide, by decide⟩
  intro a h0 hlt hval
  obtain ⟨v, c⟩ := a
  have h02 : 0 ≤ v := h0
  have hlt2 : v < 2147483648 := hlt
  have hval2 : c.valid = true := hval
  obtain ⟨nv, rfl⟩ : ∃ nv : Nat, v = (nv : Int) :=
    ⟨v.toNat, (Int.toNat_of_nonneg h02).symm⟩
  exact amount_roundtrip_nonneg nv (by exact_mod_cast hlt2) c hval2

/-- Counterexample to claim C5 as stated: the amount of −5 minor units of
USD displays as `"0.-5 USD"`, which does not parse back — so parsing the
display form of an arbitrary `Amount` does not always yield it back. -/
theorem C5_negative_amount_cex :
    Amount.fromStr (Amount.display ⟨-5, Currency.USD⟩) = none := by
  decide

theorem C5_amount_roundtrip_witness :
    Amount.fromStr (Amount.display ⟨1234, Currency.USD⟩) =
      some ⟨1234, Currency.USD⟩ :=
  C5_amount_roundtrip.1 ⟨1234, Currency.USD⟩ (by decide) (by decide) (by decide)

/-- The sixteen proquint consonants. -/
def conTable : List Char :=
  ['b', 'd', 'f', 'g', 'h', 'j', 'k', 'l', 'm', 'n', 'p', 'r', 's', 't', 'v', 'z']

/-- The four proquint vowels. -/
def vowTable : List Char := ['a', 'i', 'o', 'u']

/-- One 16-bit word as a five-letter proquint (consonant-vowel-consonant-
vowel-consonant over the 4+2+4+2+4 bit fields). -/
def encodeWord (w : Nat) : List Char :=
  [conTable.getD (w / 4096) ' ',
   vowTable.getD (w / 1024 % 4) ' ',
   conTable.getD (w / 64 % 16) ' ',
   vowTable.getD (w / 16 % 4) ' ',
   conTable.getD (w % 16) ' ']

/-- Index of a consonant in the proquint alphabet. -/
def conIdx (c : Char) : Option Nat := conTable.findIdx? (fun x => x == c)

/-- Index of a vowel in the proquint alphabet. -/
def vowIdx (c : Char) : Option Nat := vowTable.findIdx? (fun x => x == c)

/-- Decode one five-letter proquint back to its 16-bit word. -/
def decodeWord : List Char → Option Nat
  | [a, b, c, d, e] =>
    match conIdx a, vowIdx b, conIdx c, vowIdx d, conIdx e with
    | some i1, some i2, some i3, some i4, some i5 =>
      some ((((i1 * 4 + i2) * 16 + i3) * 4 + i4) * 16 + i5)
    | _, _, _, _, _ => none
  | _ => none

/-- The `k` 16-bit words of a number, most significant first. -/
def toWords : Nat → Nat → List Nat
  | 0, _ => []
  | k + 1, n => toWords k (n / 65536) ++ [n % 65536]

/-- Reassemble a most-significant-first word list. -/
def fromWords (ws : List Nat) : Nat := ws.foldl (fun a w => a * 65536 + w) 0

/-- Join proquint groups with dashes. -/
def joinWords : List (List Char) → List Char
  | [] => []
  | [w] => w
  | w :: ws => w ++ '-' :: joinWords ws

/-- Split a dash-separated string into its groups. -/
def splitDash : List Char → List (List Char)
  | [] => [[]]
  | c :: rest =>
    if c = '-' then [] :: splitDash rest
    else
      match splitDash rest with
      | [] => [[c]]
      | g :: gs => (c :: g) :: gs

/-- Rust `impl Display for Id<T>` (src/src/types.rs lines 76-81):
`proquint_encode` of the 128-bit value — eight 16-bit words, most
significant first, joined by dashes.  The kind parameter mirrors the
phantom type parameter `T`: it has no effect on the output, exactly as in
the generic Rust impl. -/
def idToString (_k : Kind) (n : Nat) : List Char :=
  joinWords ((toWords 8 n).map encodeWord)

/-- Rust `impl FromStr for Id<T>` (src/src/types.rs lines 83-90):
`u128::parse_proquints` — decode each dash-separated five-letter group and
require exactly the eight groups of a 128-bit value.  The kind parameter
mirrors the phantom `T` and is never consulted, exactly as in the source. -/
def idFromStr (_k : Kind) (cs : List Char) : Option Nat :=
  match collectSome decodeWord (splitDash cs) with
  | none => none
  | some ws => if ws.length = 8 then some (fromWords ws) else none

theorem decodeWord_encodeWord {w : Nat} (h : w < 65536) :
    decodeWord (encodeWord w) = some w := by
  have hcon : ∀ i, i < 16 → conIdx (conTable.getD i ' ') = some i := by decide
  have hvow : ∀ i, i < 4 → vowIdx (vowTable.getD i ' ') = some i := by decide
  simp only [encodeWord, decodeWord,
    hcon _ (by omega : w / 4096 < 16),
    hvow _ (by omega : w / 1024 % 4 < 4),
    hcon _ (by omega : w / 64 % 16 < 16),
    hvow _ (by omega : w / 16 % 4 < 4),
    hcon _ (by omega : w % 16 < 16)]
  congr 1
  omega

theorem toWords_length (k : Nat) : ∀ n, (toWords k n).length = k := by
  induction k with
  | zero => intro n; rfl
  | succ k ih => intro n; simp [toWords, ih]

theorem toWords_lt (k : Nat) : ∀ n, ∀ w ∈ toWords k n, w < 65536 := by
  induction k with
  | zero => intro n w hw; simp [toWords] at hw
  | succ k ih =>
    intro n w hw
    unfold toWords at hw
    rcases List.mem_append.mp hw with h2 | h2
    · exact ih _ w h2
    · simp at h2; subst h2; omega

theorem fromWords_append (l : List Nat) (x : Nat) :
    fromWords (l ++ [x]) = fromWords l * 65536 + x := by
  unfold fromWords
  rw [List.foldl_append]
  rfl

theorem fromWords_toWords (k : Nat) : ∀ n, fromWords (toWords k n) = n % 65536 ^ k := by
  induction k with
  | zero => intro n; simp [toWords, fromWords, Nat.mod_one]
  | succ k ih =>
    intro n
    unfold toWords
    rw [fromWords_append, ih]
    rw [Nat.pow_succ, Nat.mul_comm (65536 ^ k) 65536, Nat.mod_mul]
    omega

theorem splitDash_no_dash (w : List Char) (h : ('-' : Char) ∉ w) :
    splitDash w = [w] := by
  induction w with
  | nil => rfl
  | cons c cs ih =>
    have hc : c ≠ '-' := fun e => h (by simp [e])
    have ih2 := ih (fun hm => h (by simp [hm]))
    simp [splitDash, hc, ih2]

theorem splitDash_append_dash (w t : List Char) (h : ('-' : Char) ∉ w) :
    splitDash (w ++ '-' :: t) = w :: splitDash t := by
  induction w with
  | nil => simp [splitDash]
  | cons c cs ih =>
    have hc : c ≠ '-' := fun e => h (by simp [e])
    have ih2 := ih (fun hm => h (by simp [hm]))
    simp [splitDash, hc, ih2]

theorem splitDash_join (ws : List (List Char)) (hne : ws ≠ [])
    (h : ∀ w ∈ ws, ('-' : Char) ∉ w) : splitDash (joinWords ws) = ws := by
  induction ws with
  | nil => exact absurd rfl hne
  | cons w ws ih =>
    cases ws with
    | nil => exact splitDash_no_dash w (h w (by simp))
    | cons w2 ws2 =>
      rw [show joinWords (w :: w2 :: ws2) = w ++ '-' :: joinWords (w2 :: ws2) from rfl]
      rw [splitDash_append_dash w _ (h w (by simp)),
        ih (by simp) (fun x hx => h x (by simp [hx]))]

theorem encodeWord_no_dash {w : Nat} (h : w < 65536) :
    ('-' : Char) ∉ encodeWord w := by
  have hcon : ∀ i, i < 16 → conTable.getD i ' ' ≠ '-' := by decide
  have hvow : ∀ i, i < 4 → vowTable.getD i ' ' ≠ '-' := by decide
  intro hmem
  simp only [encodeWord, List.mem_cons, List.not_mem_nil, or_false] at hmem
  rcases hmem with e | e | e | e | e
  · exact hcon _ (by omega) e.symm
  · exact hvow _ (by omega) e.symm
  · exact hcon _ (by omega) e.symm
  · exact hvow _ (by omega) e.symm
  · exact hcon _ (by omega) e.symm

theorem collectSome_encodeWords (ws : List Nat) (h : ∀ w ∈ ws, w < 65536) :
    collectSome decodeWord (ws.map encodeWord) = some ws := by
  induction ws with
  | nil => rfl
  | cons w ws ih =>
    simp [collectSome, decodeWord_encodeWord (h w (by simp)),
      ih (fun x hx => h x (by simp [hx]))]

/-- Claim C7 (amended): for every generated identifier value (any 128-bit
number), text-encoding under any kind tag and decoding under ANY kind tag —
the same one or a different one — yields the original value.  Decoding
under the wrong kind tag does NOT fail: the kind tag is a compile-time-only
phantom that the `FromStr` implementation never consults. -/
theorem C7_id_text_roundtrip (k k2 : Kind) (n : Nat) (h : n < 2 ^ 128) :
    idFromStr k2 (idToString k n) = some n := by
  have hlt := toWords_lt 8 n
  have hnodash : ∀ ws ∈ (toWords 8 n).map encodeWord, ('-' : Char) ∉ ws := by
    intro ws hws
    simp at hws
    obtain ⟨w, hw, rfl⟩ := hws
    exact encodeWord_no_dash (hlt w hw)
  have hlen := toWords_length 8 n
  have hne : (toWords 8 n).map encodeWord ≠ [] := by
    intro e
    have h2 := congrArg List.length e
    simp [hlen] at h2
  unfold idFromStr idToString
  rw [splitDash_join _ hne hnodash, collectSome_encodeWords _ hlt]
  show (if (toWords 8 n).length = 8 then some (fromWords (toWords 8 n)) else none) =
    some n
  rw [if_pos hlen, fromWords_toWords]
  congr 1
  have hpow : (65536 : Nat) ^ 8 = 2 ^ 128 := by norm_num
  rw [hpow]
  exact Nat.mod_eq_of_lt h

/-- Counterexample to claim C7 as stated: decoding the output of encoding
the identifier value 12345 tagged Physical, under the Virtual kind tag,
does not fail — it succeeds and returns the original value, because the
kind tag is phantom and the decoder never checks it. -/
theorem C7_wrong_kind_decode_cex :
    idFromStr Kind.virtual (idToString Kind.physical 12345) = some 12345 := by
  decide

theorem C7_id_text_roundtrip_witness :
    idFromStr Kind.transaction (idToString Kind.transaction 1) = some 1 :=
  C7_id_text_roundtrip Kind.transaction Kind.transaction 1 (by norm_num)

/-- Rust `struct RemoteRepository` (src/src/repository/remote.rs): the client's
only state relevant to commands is its cached account list. -/
structure RemoteState where
  accounts : List Account
deriving DecidableEq, Repr

/-- Rust `RemoteRepository::run_command` (src/src/repository/remote.rs lines
156-160): `self.accounts = self.handle.run_command(command)?`.  The handle's
round trip (send over the wire, parse the reply) is abstracted as its
outcome `resp`: every transport error, protocol desynchronisation or
server-side command failure surfaces there as `Except.error`, and a
successful round trip carries the server's post-command account list. -/
def RemoteState.runCommand (st : RemoteState) (resp : Except String (List Account)) :
    Except String Unit × RemoteState :=
  match resp with
  | .error e => (.error e, st)
  | .ok l => (.ok (), ⟨l⟩)

/-- Claim C9: whenever the remote client's command round-trip fails, the
cached account list is exactly what it was before the call; whenever it
succeeds, the cache is replaced by the account list the server returned. -/
theorem C9_remote_cache_on_failure_and_success :
    (∀ (st : RemoteState) (e : String),
      RemoteState.runCommand st (.error e) = (.error e, st)) ∧
    (∀ (st : RemoteState) (l : List Account),
      RemoteState.runCommand st (.ok l) = (.ok (), ⟨l⟩)) :=
  ⟨fun _ _ => rfl, fun _ _ => rfl⟩

end Monfari
